import Mathlib

/-!
# LinkVault — verification of the link-ingestion and client-sync core

Shallow embedding of the LinkVault bookmarking service:

* `links-saver-backend/src/utils/validation.js` — `isValidUrl`, `validateLinkInput`
* `links-saver-backend/src/utils/metadataFetcher.js` — `fetchMetadata`,
  `getFallbackMetadata`, `extractDomainName`
* `links-saver-backend/src/routes/links.js` — single and bulk link creation,
  `PATCH /:id`, `PATCH /:id/favorite`
* `links-saver-backend/src/routes/collections.js` — share issuance / revocation
* `links-saver-frontend/src/hooks/useLinks.ts` — `useDeleteWithUndo`

JavaScript strings are modelled as Lean `String` (a wrapper around
`List Char`); the JS string operations used by the code (`trim`,
one-occurrence `replace`, `split`) are defined below over the character
list.  External services (the metadata scraper, the database) are modelled
as explicit oracles supplied to the functions that call them.
-/

namespace LinkVault

/-! ## JavaScript string primitives -/

/-- Whitespace as trimmed by `String.prototype.trim` / the URL constructor
(ASCII C0 controls and space; the repository only handles ASCII input). -/
def jsWhitespace (c : Char) : Bool := c.val ≤ 32

def jsTrimList (l : List Char) : List Char :=
  ((l.dropWhile jsWhitespace).reverse.dropWhile jsWhitespace).reverse

/-- Model of `s.trim()`. -/
def jsTrim (s : String) : String := ⟨jsTrimList s.data⟩

/-- Model of `s.split(sep)` for a single-character separator:
`''.split('.') = ['']`, `'a.b'.split('.') = ['a','b']`. -/
def splitSep (sep : Char) : List Char → List (List Char)
  | [] => [[]]
  | c :: cs =>
    match splitSep sep cs with
    | [] => [[]]
    | h :: t => if c = sep then [] :: h :: t else (c :: h) :: t

/-- Model of `s.replace(pat, rep)` with a *string* pattern: JavaScript
replaces only the first occurrence. -/
def jsReplaceOnce (pat rep : List Char) : List Char → List Char
  | [] => []
  | c :: cs =>
    if pat.isPrefixOf (c :: cs) then rep ++ (c :: cs).drop pat.length
    else c :: jsReplaceOnce pat rep cs

/-- `pat.isPrefixOf s` at the string level (model of `s.startsWith(pat)`). -/
def startsWithL (pat s : String) : Bool := pat.data.isPrefixOf s.data

/-- JS truthiness of a nullable string: `null`/`undefined` and `''` are falsy. -/
def truthy : Option String → Bool
  | some s => s ≠ ""
  | none => false

/-- Model of `a || b` on nullable strings. -/
def jsOr (a b : Option String) : Option String := if truthy a then a else b

/-- Model of `a || null` on nullable strings. -/
def jsOrNull (a : Option String) : Option String := if truthy a then a else none

/-! ## Model of the WHATWG `URL` platform constructor

The code delegates URL parsing to the platform's `new URL(...)`.  We model
the constructor for the absolute `scheme://[userinfo@]host[:port][/...]`
forms exercised by the repository: the result records `protocol` (with
trailing colon, lower-cased) and `hostname` (lower-cased); strings without
a `scheme://` prefix, or with an empty or malformed host, fail to parse
(`none` models the constructor throwing). -/

structure JsUrl where
  protocol : String
  hostname : String
deriving DecidableEq

/-- Split a character list at the first occurrence of `pat`
(`none` when `pat` does not occur). -/
def breakOnSub (pat : List Char) : List Char → Option (List Char × List Char)
  | [] => none
  | c :: cs =>
    if pat.isPrefixOf (c :: cs) then some ([], (c :: cs).drop pat.length)
    else
      match breakOnSub pat cs with
      | some (a, b) => some (c :: a, b)
      | none => none

def schemeCharOk (c : Char) : Bool := c.isAlphanum || c = '+' || c = '-' || c = '.'

def hostCharOk (c : Char) : Bool :=
  !(c.val ≤ 32) && !(c ∈ ['/', '?', '#', '@', ':', '\\', '[', ']', '<', '>', '"', '^', '|'])

/-- Model of `new URL(s)` (see the section comment for its scope). -/
def parseUrl (s : String) : Option JsUrl :=
  match breakOnSub [':', '/', '/'] (jsTrimList s.data) with
  | none => none
  | some (scheme, rest) =>
    if (scheme.headD ' ').isAlpha && scheme.all schemeCharOk then
      let authority := rest.takeWhile (fun c => c ≠ '/' && c ≠ '?' && c ≠ '#')
      let hostport := (splitSep '@' authority).getLastD []
      let host := hostport.takeWhile (fun c => c ≠ ':')
      if host ≠ [] && host.all hostCharOk then
        some ⟨⟨scheme.map Char.toLower ++ [':']⟩, ⟨host.map Char.toLower⟩⟩
      else none
    else none

/-! ## `validation.js` -/

/-- `isValidUrl` from `validation.js`: the URL parses and its protocol is
`http:` or `https:`. -/
def isValidUrl (s : String) : Bool :=
  match parseUrl s with
  | some u => u.protocol == "http:" || u.protocol == "https:"
  | none => false

structure ValidationResult where
  valid : Bool
  error : Option String
deriving DecidableEq

/-- `validateLinkInput` from `validation.js`.  `url = none` models a missing
or non-string `url` field; `note = none` models a missing `note`. -/
def validateLinkInput (url note : Option String) : ValidationResult :=
  match url with
  | none => ⟨false, some "URL is required"⟩
  | some u =>
    if jsTrim u = "" then ⟨false, some "URL is required"⟩
    else if !isValidUrl (jsTrim u) then ⟨false, some "Invalid URL format"⟩
    else if u.length > 2048 then ⟨false, some "URL is too long"⟩
    else
      match note with
      | some n =>
        if n.length > 5000 then ⟨false, some "Note is too long (max 5000 characters)"⟩
        else ⟨true, none⟩
      | none => ⟨true, none⟩

/-! ## `metadataFetcher.js` -/

/-- The `hostname.replace('www.', '').split('.')[0]` computation inside
`extractDomainName`, factored over the hostname. -/
def domainToken (hostname : String) : String :=
  ⟨(splitSep '.' (jsReplaceOnce "www.".data [] hostname.data)).headD []⟩

/-- `extractDomainName` from `metadataFetcher.js`: first dot-label of the
hostname after a `replace('www.', '')`, or `"Link"` when `new URL` throws. -/
def extractDomainName (url : String) : String :=
  match parseUrl url with
  | some u => domainToken u.hostname
  | none => "Link"

/-- The record `{title, description, image, favicon}` returned by the
metadata resolver (`null` modelled as `none`). -/
structure Metadata where
  title : Option String
  description : Option String
  image : Option String
  favicon : Option String
deriving DecidableEq

/-- `getFallbackMetadata` from `metadataFetcher.js`. -/
def getFallbackMetadata (url : String) : Metadata :=
  match parseUrl url with
  | some u =>
    { title := some (extractDomainName url)
      description := none
      image := none
      favicon := some ("https://www.google.com/s2/favicons?domain=" ++ u.hostname ++ "&sz=128") }
  | none =>
    { title := some "Saved Link", description := none, image := none, favicon := none }

/-- The fields of the `open-graph-scraper` result that `fetchMetadata`
reads (`ogImageUrl` stands for `result.ogImage?.[0]?.url`, likewise
`twitterImageUrl`). -/
structure OgsData where
  ogTitle : Option String
  twitterTitle : Option String
  dcTitle : Option String
  ogDescription : Option String
  twitterDescription : Option String
  dcDescription : Option String
  ogImageUrl : Option String
  twitterImageUrl : Option String
  favicon : Option String
deriving DecidableEq

/-- Outcome of the `await ogs(options)` call for one URL: the scraper call
(or any later statement of the `try` block) threw, resolved with its
`error` flag set, or resolved with data.  `threw` covers every exception
path, including the ~8s timeout. -/
inductive OgsOutcome where
  | threw
  | errored
  | ok (r : OgsData)
deriving DecidableEq

/-- Model of `new URL(u, origin).href` for the simple relative references
the resolver closure feeds it (absolute `http...` strings never reach it). -/
def urlResolveAgainst (origin u : String) : String :=
  if startsWithL "/" u then origin ++ u else origin ++ "/" ++ u

/-- The `resolve` closure inside `fetchMetadata`:
`(u) => u ? (u.startsWith('http') ? u : new URL(u, origin).href) : null`. -/
def jsResolveAsset (origin : String) (mu : Option String) : Option String :=
  if truthy mu then
    if startsWithL "http" (mu.getD "") then mu
    else some (urlResolveAgainst origin (mu.getD ""))
  else none

/-- `fetchMetadata` from `metadataFetcher.js`.  The `catch` arm (every
exception, including the timeout) is the `.threw` case; a resolved call
with the `error` flag is `.errored`; both return the fallback record. -/
def fetchMetadata (o : OgsOutcome) (url : String) : Metadata :=
  match o with
  | .threw => getFallbackMetadata url
  | .errored => getFallbackMetadata url
  | .ok r =>
    match parseUrl url with
    | none => getFallbackMetadata url
    | some u =>
      let origin := u.protocol ++ "//" ++ u.hostname
      { title := jsOr r.ogTitle (jsOr r.twitterTitle (jsOr r.dcTitle
          (some (extractDomainName url))))
        description := jsOr r.ogDescription (jsOr r.twitterDescription
          (jsOr r.dcDescription none))
        image := jsResolveAsset origin (jsOr r.ogImageUrl r.twitterImageUrl)
        favicon := jsOr (jsResolveAsset origin r.favicon)
          (some ("https://www.google.com/s2/favicons?domain=" ++ u.hostname ++ "&sz=64")) }

/-! ## The `useful_links` table and `routes/links.js` -/

/-- A row of `public.useful_links` (schema v2), restricted to the columns
the routes under study read or write.  `id` is an abstract identifier. -/
structure LinkRow where
  id : Nat
  user_id : String
  url : String
  note : String
  tags : List String
  is_favorite : Bool
  collection_id : Option String
  title : Option String
  description : Option String
  image_url : Option String
  favicon_url : Option String
deriving DecidableEq

/-- The `useful_links` table, with a supply of fresh row ids. -/
structure LinksDb where
  rows : List LinkRow
  nextId : Nat
deriving DecidableEq

/-- The duplicate lookup
`.select('id').eq('user_id', uid).eq('url', url.trim()).maybeSingle()`. -/
def findByUrl (db : LinksDb) (user url : String) : Option LinkRow :=
  db.rows.find? (fun r => r.user_id == user && r.url == jsTrim url)

/-- The ownership lookup `.eq('id', id).eq('user_id', uid).single()`. -/
def findLink (db : LinksDb) (id : Nat) (user : String) : Option LinkRow :=
  db.rows.find? (fun r => r.id == id && r.user_id == user)

/-- Request body of `POST /api/links`; `none` models an absent field. -/
structure CreateBody where
  url : Option String
  note : Option String
  tags : Option (List String)
  is_favorite : Option Bool
  collection_id : Option String
deriving DecidableEq

/-- The `linkData` record built by `POST /api/links` after validation, with
the metadata already resolved. -/
def buildLinkData (user : String) (b : CreateBody) (md : Metadata) (fresh : Nat) : LinkRow :=
  { id := fresh
    user_id := user
    url := jsTrim (b.url.getD "")
    note := jsTrim (b.note.getD "")
    tags := match b.tags with
      | some ts => (ts.map jsTrim).filter (fun t => t ≠ "")
      | none => []
    is_favorite := b.is_favorite.getD false
    collection_id := jsOrNull b.collection_id
    title := md.title
    description := md.description
    image_url := md.image
    favicon_url := md.favicon }

/-- `POST /api/links`: validate, resolve metadata (outcome `o`), insert.
Returns the HTTP status and the updated table; status 400 leaves the table
untouched. -/
def createLink (user : String) (b : CreateBody) (o : OgsOutcome) (db : LinksDb) :
    Nat × LinksDb :=
  let v := validateLinkInput b.url b.note
  if v.valid then
    let md := fetchMetadata o (b.url.getD "")
    (201, ⟨db.rows ++ [buildLinkData user b md db.nextId], db.nextId + 1⟩)
  else (400, db)

/-- Request body of `PATCH /api/links/:id`: outer `none` = field absent
from the payload.  For `collection_id` the inner `Option` is the supplied
nullable value (`collection_id || null` is applied on write). -/
structure PatchBody where
  note : Option String
  tags : Option (List String)
  is_favorite : Option Bool
  collection_id : Option (Option String)
deriving DecidableEq

/-- The `updates` object of `PATCH /api/links/:id` applied to a row. -/
def patchLink (b : PatchBody) (r : LinkRow) : LinkRow :=
  let r := match b.note with
    | some n => { r with note := jsTrim n }
    | none => r
  let r := match b.tags with
    | some ts => { r with tags := (ts.map jsTrim).filter (fun t => t ≠ "") }
    | none => r
  let r := match b.is_favorite with
    | some f => { r with is_favorite := f }
    | none => r
  match b.collection_id with
  | some c => { r with collection_id := jsOrNull c }
  | none => r

/-- `PATCH /api/links/:id/favorite`: read the current row via
`findLink`, then write `is_favorite := !current` to the rows matched by
`.eq('id', id).eq('user_id', user)`.  Returns the updated table and the
row reported back to the client (`none` models the 404 branch, which
leaves the table untouched). -/
def toggleFavorite (db : LinksDb) (id : Nat) (user : String) :
    LinksDb × Option LinkRow :=
  match findLink db id user with
  | none => (db, none)
  | some cur =>
    let rows := db.rows.map (fun r =>
      if r.id == id && r.user_id == user then { r with is_favorite := !cur.is_favorite } else r)
    (⟨rows, db.nextId⟩, some { cur with is_favorite := !cur.is_favorite })

/-! ### `POST /api/links/bulk` -/

/-- Per-iteration oracle for the bulk loop: the scraper outcome for the
`fetchMetadata` call and the insert outcome (`none` = the insert
succeeded, `some msg` = the persistence layer threw with message `msg`). -/
structure BulkEnv where
  ogs : Nat → OgsOutcome
  ins : Nat → Option String

/-- Accumulator of the bulk loop: the three result buckets, the table, and
the index of the current iteration. -/
structure BulkState where
  db : LinksDb
  success : List LinkRow
  failed : List (String × String)
  duplicates : List (String × Nat)
  idx : Nat
deriving DecidableEq

/-- One iteration of the `for (const urlItem of urls)` loop in
`POST /api/links/bulk` for a string item `url`: duplicate check, then
metadata fetch and insert, any exception landing the URL in `failed`. -/
def bulkStep (user : String) (tags : List String) (cid : Option String)
    (env : BulkEnv) (st : BulkState) (url : String) : BulkState :=
  match findByUrl st.db user url with
  | some ex =>
    { st with duplicates := st.duplicates ++ [(url, ex.id)], idx := st.idx + 1 }
  | none =>
    let md := fetchMetadata (env.ogs st.idx) url
    match env.ins st.idx with
    | some msg =>
      { st with failed := st.failed ++ [(url, msg)], idx := st.idx + 1 }
    | none =>
      let row : LinkRow :=
        { id := st.db.nextId
          user_id := user
          url := jsTrim url
          note := ""
          tags := tags
          is_favorite := false
          collection_id := cid
          title := md.title
          description := md.description
          image_url := md.image
          favicon_url := md.favicon }
      { st with
        db := ⟨st.db.rows ++ [row], st.db.nextId + 1⟩
        success := st.success ++ [row]
        idx := st.idx + 1 }

/-- The bulk loop over all URLs. -/
def bulkRun (user : String) (tags : List String) (cid : Option String)
    (env : BulkEnv) (urls : List String) (st : BulkState) : BulkState :=
  urls.foldl (bulkStep user tags cid env) st

/-- `POST /api/links/bulk`: batch-size validation, then the sequential
loop.  `Except.error` models the 400 rejection of the whole batch. -/
def bulkCreate (user : String) (tags : List String) (cid : Option String)
    (env : BulkEnv) (db : LinksDb) (urls : List String) : Except String BulkState :=
  if urls.length = 0 then .error "URLs array required"
  else if urls.length > 20 then .error "Maximum 20 URLs at once"
  else .ok (bulkRun user tags cid env urls ⟨db, [], [], [], 0⟩)

/-! ## The `collections` table and `routes/collections.js` -/

/-- A row of `public.collections`. -/
structure CollectionRow where
  id : Nat
  user_id : String
  name : String
  description : Option String
  color : String
  is_public : Bool
  share_slug : Option String
deriving DecidableEq

/-- The row inserted by `POST /api/collections` (after the name check):
`is_public` and `share_slug` are not supplied, so the schema defaults
`FALSE` / `NULL` apply. -/
def createCollection (user name : String) (description : Option String)
    (color : Option String) (fresh : Nat) : CollectionRow :=
  { id := fresh
    user_id := user
    name := jsTrim name
    description := jsOrNull (description.map jsTrim)
    color := (jsOr color (some "#f97316")).getD ""
    is_public := false
    share_slug := none }

/-- The `updates` object of `PATCH /api/collections/:id` applied to a row
(only `name`, `description`, `color` can be supplied). -/
def patchCollection (name : Option String) (description : Option (Option String))
    (color : Option String) (c : CollectionRow) : CollectionRow :=
  let c := match name with
    | some n => { c with name := jsTrim n }
    | none => c
  let c := match description with
    | some d => { c with description := jsOrNull (d.map jsTrim) }
    | none => c
  match color with
  | some col => { c with color := col }
  | none => c

/-- `POST /api/collections/:id/share`: one update writing
`{ is_public: true, share_slug: slug }`, where `slug` is the value of
`crypto.randomBytes(8).toString('hex')` (randomness modelled as a
parameter). -/
def shareCollection (slug : String) (c : CollectionRow) : CollectionRow :=
  { c with is_public := true, share_slug := some slug }

/-- `DELETE /api/collections/:id/share`: one update writing
`{ is_public: false, share_slug: null }`. -/
def revokeShare (c : CollectionRow) : CollectionRow :=
  { c with is_public := false, share_slug := none }

/-- The share invariant of the data model: `share_slug` is non-null
exactly when `is_public`. -/
def slugConsistent (c : CollectionRow) : Prop :=
  c.share_slug.isSome = c.is_public

instance (c : CollectionRow) : Decidable (slugConsistent c) := by
  unfold slugConsistent; infer_instance

/-! ## `useDeleteWithUndo` (`useLinks.ts`)

The hook keeps two module-level variables, `deletedLink` and
`undoTimeout`, next to the query cache.  We model the client as a state
(`UndoState`) acted on by three events: `deleteWithUndo(link)`, the
toast's undo `onClick`, and the firing of a `setTimeout` callback.  Timers
get fresh identifiers from a counter; `clearTimeout` is modelled by
dropping the pending timer, so a `fire` of a cleared (or superseded)
identifier is a no-op.  `sent` records the ids for which the actual
`DELETE /api/links/:id` request (`deleteMutation.mutate`) was issued. -/

/-- The client-side link record (only the fields the hook inspects). -/
structure CLink where
  id : Nat
  url : String
deriving DecidableEq

structure UndoState where
  /-- the module-level `deletedLink` holder -/
  deletedLink : Option CLink
  /-- the pending `setTimeout`, as (timer id, `link.id` captured by the callback) -/
  timer : Option (Nat × Nat)
  /-- the cached list view (`setQueriesData` over the `['links']` views,
  modelled as a single list) -/
  cache : List CLink
  /-- ids for which the delete network request has been issued -/
  sent : List Nat
  /-- fresh-timer-id counter -/
  nextTimer : Nat
deriving DecidableEq

inductive UndoEvent where
  /-- a call of `deleteWithUndo(l)` -/
  | del (l : CLink)
  /-- a click on the toast's Undo action -/
  | undo
  /-- the runtime fires the timeout with identifier `t` (only pending,
  uncleared timers can fire) -/
  | fire (t : Nat)
deriving DecidableEq

/-- One step of the undo-delete protocol, transcribing `deleteWithUndo`,
the undo `onClick`, and the `setTimeout` callback. -/
def undoStep (s : UndoState) : UndoEvent → UndoState
  | .del l =>
    -- deletedLink = link; clearTimeout(existing); optimistic removal;
    -- undoTimeout = setTimeout(callback, 5000)
    { deletedLink := some l
      timer := some (s.nextTimer, l.id)
      cache := s.cache.filter (fun x => x.id ≠ l.id)
      sent := s.sent
      nextTimer := s.nextTimer + 1 }
  | .undo =>
    -- if (deletedLink) { restore at head; deletedLink = null; clearTimeout }
    match s.deletedLink with
    | some l => { s with cache := l :: s.cache, deletedLink := none, timer := none }
    | none => s
  | .fire t =>
    match s.timer with
    | some (tid, lid) =>
      if t = tid then
        -- the callback: if (deletedLink?.id === link.id) { mutate; deletedLink = null }
        match s.deletedLink with
        | some dl =>
          if dl.id = lid then
            { s with timer := none
                     sent := lid :: s.sent
                     deletedLink := none
                     cache := s.cache.filter (fun x => x.id ≠ lid) }
          else { s with timer := none }
        | none => { s with timer := none }
      else s
    | none => s

/-- A client trace: the events applied in order. -/
def undoRun (es : List UndoEvent) (s : UndoState) : UndoState :=
  es.foldl undoStep s

/-- The ids of links with a `del` event in a trace. -/
def delIds (es : List UndoEvent) : List Nat :=
  es.filterMap (fun e => match e with | .del l => some l.id | _ => none)

/-- The title-fallback token as the specification words it (§4.1): the
host minus a leading `"www."` prefix, minus the trailing TLD segment.
Written from the spec, for comparison with `extractDomainName`. -/
def specDomainToken (host : String) : String :=
  let h : List Char := if startsWithL "www." host then host.data.drop 4 else host.data
  ⟨List.intercalate ['.'] (splitSep '.' h).dropLast⟩

/-! ## Helper lemmas -/

theorem truthy_isSome {a : Option String} (h : truthy a = true) : a.isSome = true := by
  cases a with
  | none => simp [truthy] at h
  | some s => rfl

theorem jsOr_isSome (a : Option String) {b : Option String} (hb : b.isSome = true) :
    (jsOr a b).isSome = true := by
  unfold jsOr
  by_cases h : truthy a = true
  · simp [h, truthy_isSome h]
  · simp [Bool.not_eq_true] at h
    simp [h, hb]

theorem splitSep_ne_nil (sep : Char) (l : List Char) : splitSep sep l ≠ [] := by
  cases l with
  | nil => simp [splitSep]
  | cons c cs =>
    unfold splitSep
    cases h : splitSep sep cs with
    | nil => simp
    | cons hd tl =>
      by_cases hc : c = sep <;> simp [hc]

theorem headD_splitSep (sep : Char) (l : List Char) :
    (splitSep sep l).headD [] = l.takeWhile (fun c => c ≠ sep) := by
  induction l with
  | nil => simp [splitSep]
  | cons c cs ih =>
    unfold splitSep
    cases h : splitSep sep cs with
    | nil => exact absurd h (splitSep_ne_nil sep cs)
    | cons hd tl =>
      by_cases hc : c = sep
      · subst hc; simp [List.takeWhile]
      · rw [h] at ih
        simp only [List.headD] at ih
        simp [hc, List.takeWhile, ih]

/-! ## C2 — the metadata resolver is total and degrades to the fallback -/

/-- **C2.** For every URL accepted by `isValidUrl` (http/https), the
resolver returns a non-null `title` and a non-null `favicon` under *every*
scraper outcome; every exception path (`.threw`, covering fetch errors and
the ~8s timeout) and the scraper-error path (`.errored`) return exactly
`getFallbackMetadata url`, which is built purely from the URL:
domain-derived title, null description and image, and the
favicon-by-domain service URL.  (The Lean model is total by construction,
mirroring that the JS function never propagates an exception: its `catch`
arm is the `.threw` case.) -/
theorem metadata_resolver_total_and_fallback (url : String) (o : OgsOutcome)
    (h : isValidUrl url = true) :
    (fetchMetadata o url).title.isSome = true ∧
    (fetchMetadata o url).favicon.isSome = true ∧
    fetchMetadata .threw url = getFallbackMetadata url ∧
    fetchMetadata .errored url = getFallbackMetadata url ∧
    ∃ u, parseUrl url = some u ∧
      getFallbackMetadata url =
        { title := some (domainToken u.hostname)
          description := none
          image := none
          favicon := some ("https://www.google.com/s2/favicons?domain=" ++ u.hostname ++ "&sz=128") } := by
  obtain ⟨u, hu⟩ : ∃ u, parseUrl url = some u := by
    unfold isValidUrl at h
    cases hp : parseUrl url with
    | none => rw [hp] at h; exact absurd h (by simp)
    | some u => exact ⟨u, rfl⟩
  have hfb : getFallbackMetadata url =
      { title := some (domainToken u.hostname)
        description := none
        image := none
        favicon := some ("https://www.google.com/s2/favicons?domain=" ++ u.hostname ++ "&sz=128") } := by
    unfold getFallbackMetadata extractDomainName
    rw [hu]
  refine ⟨?_, ?_, rfl, rfl, u, hu, hfb⟩
  · cases o with
    | threw => simp [fetchMetadata, hfb]
    | errored => simp [fetchMetadata, hfb]
    | ok r =>
      simp only [fetchMetadata, hu]
      exact jsOr_isSome _ (jsOr_isSome _ (jsOr_isSome _ rfl))
  · cases o with
    | threw => simp [fetchMetadata, hfb]
    | errored => simp [fetchMetadata, hfb]
    | ok r =>
      simp only [fetchMetadata, hu]
      exact jsOr_isSome _ rfl

/-- Witness for C2 at a concrete URL and outcome. -/
theorem metadata_resolver_total_and_fallback_witness :
    isValidUrl "https://example.com" = true ∧
    ((fetchMetadata .threw "https://example.com").title.isSome = true ∧
     (fetchMetadata .threw "https://example.com").favicon.isSome = true ∧
     fetchMetadata .threw "https://example.com" = getFallbackMetadata "https://example.com" ∧
     fetchMetadata .errored "https://example.com" = getFallbackMetadata "https://example.com" ∧
     ∃ u, parseUrl "https://example.com" = some u ∧
       getFallbackMetadata "https://example.com" =
         { title := some (domainToken u.hostname)
           description := none
           image := none
           favicon := some ("https://www.google.com/s2/favicons?domain=" ++ u.hostname ++ "&sz=128") }) :=
  ⟨by decide, metadata_resolver_total_and_fallback "https://example.com" .threw (by decide)⟩

/-! ## C8 — the domain-name title fallback -/

/-- **C8 (counterexample).** On the claim's own example host `a.b.tld`,
the code's fallback token is `"a"` (first dot-label after a
first-occurrence `replace('www.', '')`), not the spec's host-minus-TLD
token `"a.b"`. -/
theorem extractDomainName_spec_mismatch :
    extractDomainName "http://a.b.tld" = "a" ∧
    (fetchMetadata .threw "http://a.b.tld").title = some "a" ∧
    specDomainToken "a.b.tld" = "a.b" ∧
    extractDomainName "http://a.b.tld" ≠ specDomainToken "a.b.tld" := by decide

/-- **C8 (amended).** For every URL the platform URL parser accepts, the
final title fallback is the *first dot-separated label* of the hostname
after removing the *first occurrence* of the substring `"www."`
(`hostname.replace('www.', '').split('.')[0]`; trailing TLD segments are
not removed, and a non-leading `www.` occurrence is also removed). -/
theorem extractDomainName_characterization (url : String) (u : JsUrl)
    (h : parseUrl url = some u) :
    extractDomainName url =
      ⟨(jsReplaceOnce "www.".data [] u.hostname.data).takeWhile (fun c => c ≠ '.')⟩ := by
  simp only [extractDomainName, domainToken, h, headD_splitSep]

/-- Witness for C8's amended theorem at a concrete URL. -/
theorem extractDomainName_characterization_witness :
    parseUrl "http://a.b.tld" = some ⟨"http:", "a.b.tld"⟩ ∧
    extractDomainName "http://a.b.tld" =
      ⟨(jsReplaceOnce "www.".data [] ("a.b.tld" : String).data).takeWhile (fun c => c ≠ '.')⟩ :=
  ⟨by decide, extractDomainName_characterization "http://a.b.tld" ⟨"http:", "a.b.tld"⟩ (by decide)⟩

/-! ## C5 — single-link validation -/

/-- **C5.** `validateLinkInput` rejects exactly when the url is absent,
not well-formed with an http/https scheme (this also covers a blank url),
longer than 2048 characters, or the note is present and longer than 5000
characters; every rejection carries one of the four field-naming messages;
and on rejection `POST /api/links` answers 400 and inserts no row. -/
theorem validateLinkInput_characterization (url note : Option String) :
    ((validateLinkInput url note).valid = false ↔
      (url = none ∨ isValidUrl (jsTrim (url.getD "")) = false ∨ (url.getD "").length > 2048 ∨
        ∃ n, note = some n ∧ n.length > 5000)) ∧
    ((validateLinkInput url note).valid = false →
      ∃ msg, (validateLinkInput url note).error = some msg ∧
        (msg = "URL is required" ∨ msg = "Invalid URL format" ∨ msg = "URL is too long" ∨
         msg = "Note is too long (max 5000 characters)")) ∧
    ((validateLinkInput url note).valid = false →
      ∀ user tags fav cid o db, createLink user ⟨url, note, tags, fav, cid⟩ o db = (400, db)) := by
  refine ⟨?_, ?_, ?_⟩
  · cases url with
    | none => simp [validateLinkInput]
    | some u =>
      simp only [validateLinkInput, Option.getD_some]
      by_cases h1 : jsTrim u = ""
      · have hv : isValidUrl ("" : String) = false := by decide
        simp [h1, hv]
      · by_cases h2 : isValidUrl (jsTrim u) = true
        · by_cases h3 : u.length > 2048
          · simp [h1, h2, h3]
          · cases note with
            | none => simp [h1, h2, h3]
            | some n =>
              by_cases h4 : n.length > 5000
              · simp [h1, h2, h3, h4]
              · simp [h1, h2, h3, h4]
        · have h2' : isValidUrl (jsTrim u) = false := by simpa using h2
          simp [h1, h2']
  · intro hv
    cases url with
    | none => exact ⟨"URL is required", rfl, Or.inl rfl⟩
    | some u =>
      simp only [validateLinkInput] at hv ⊢
      by_cases h1 : jsTrim u = ""
      · refine ⟨"URL is required", ?_, Or.inl rfl⟩
        simp [h1]
      · by_cases h2 : isValidUrl (jsTrim u) = true
        · by_cases h3 : u.length > 2048
          · refine ⟨"URL is too long", ?_, Or.inr (Or.inr (Or.inl rfl))⟩
            simp [h1, h2, h3]
          · cases note with
            | none => simp [h1, h2, h3] at hv
            | some n =>
              by_cases h4 : n.length > 5000
              · refine ⟨"Note is too long (max 5000 characters)", ?_,
                  Or.inr (Or.inr (Or.inr rfl))⟩
                simp [h1, h2, h3, h4]
              · simp [h1, h2, h3, h4] at hv
        · have h2' : isValidUrl (jsTrim u) = false := by simpa using h2
          refine ⟨"Invalid URL format", ?_, Or.inr (Or.inl rfl)⟩
          simp [h1, h2']
  · intro hv user tags fav cid o db
    simp [createLink, hv]

/-- Witness for C5 at a malformed concrete url. -/
theorem validateLinkInput_characterization_witness :
    (validateLinkInput (some "notaurl") none).valid = false ∧
    createLink "u1" ⟨some "notaurl", none, none, none, none⟩ .threw ⟨[], 0⟩ = (400, ⟨[], 0⟩) :=
  ⟨by decide,
   (validateLinkInput_characterization (some "notaurl") none).2.2 (by decide)
     "u1" none none none .threw ⟨[], 0⟩⟩

/-! ## C6 — PATCH applies only supplied fields -/

/-- **C6.** `PATCH /api/links/:id` has true partial-update semantics: each
of `note`, `tags`, `is_favorite`, `collection_id` is written exactly when
it is supplied in the payload (with the route's normalisation applied),
every omitted one keeps its previous value, and no other column of the row
is modified. -/
theorem patchLink_partial_update (b : PatchBody) (r : LinkRow) :
    (b.note = none → (patchLink b r).note = r.note) ∧
    (∀ n, b.note = some n → (patchLink b r).note = jsTrim n) ∧
    (b.tags = none → (patchLink b r).tags = r.tags) ∧
    (∀ ts, b.tags = some ts →
      (patchLink b r).tags = (ts.map jsTrim).filter (fun t => t ≠ "")) ∧
    (b.is_favorite = none → (patchLink b r).is_favorite = r.is_favorite) ∧
    (∀ f, b.is_favorite = some f → (patchLink b r).is_favorite = f) ∧
    (b.collection_id = none → (patchLink b r).collection_id = r.collection_id) ∧
    (∀ c, b.collection_id = some c → (patchLink b r).collection_id = jsOrNull c) ∧
    (patchLink b r).id = r.id ∧
    (patchLink b r).user_id = r.user_id ∧
    (patchLink b r).url = r.url ∧
    (patchLink b r).title = r.title ∧
    (patchLink b r).description = r.description ∧
    (patchLink b r).image_url = r.image_url ∧
    (patchLink b r).favicon_url = r.favicon_url := by
  obtain ⟨bn, bt, bf, bc⟩ := b
  cases bn <;> cases bt <;> cases bf <;> cases bc <;> simp [patchLink]

/-- Witness for C6 at a concrete payload and row. -/
theorem patchLink_partial_update_witness :
    (patchLink ⟨none, none, some true, none⟩
        ⟨1, "u", "http://a.com", "n", ["t"], false, none, none, none, none, none⟩).note = "n" ∧
    (patchLink ⟨none, none, some true, none⟩
        ⟨1, "u", "http://a.com", "n", ["t"], false, none, none, none, none, none⟩).is_favorite = true :=
  ⟨(patchLink_partial_update ⟨none, none, some true, none⟩
      ⟨1, "u", "http://a.com", "n", ["t"], false, none, none, none, none, none⟩).1 rfl,
   (patchLink_partial_update ⟨none, none, some true, none⟩
      ⟨1, "u", "http://a.com", "n", ["t"], false, none, none, none, none, none⟩).2.2.2.2.2.1 true rfl⟩

/-! ## C7 — favorite-toggle flips and is involutive -/

/-- Closed form of one `PATCH /:id/favorite` call when the row exists. -/
theorem toggleFavorite_eq (db : LinksDb) (id : Nat) (user : String) (r : LinkRow)
    (h : findLink db id user = some r) :
    toggleFavorite db id user =
      (⟨db.rows.map (fun x => if x.id == id && x.user_id == user then
          { x with is_favorite := !r.is_favorite } else x), db.nextId⟩,
       some { r with is_favorite := !r.is_favorite }) := by
  unfold toggleFavorite
  rw [h]

/-- Rewriting every matched row's `is_favorite` commutes with the lookup. -/
theorem findLink_map_flip (db : LinksDb) (id : Nat) (user : String) (v : Bool) (r : LinkRow)
    (h : findLink db id user = some r) :
    findLink ⟨db.rows.map (fun x => if x.id == id && x.user_id == user then
        { x with is_favorite := v } else x), db.nextId⟩ id user
      = some { r with is_favorite := v } := by
  unfold findLink at *
  show List.find? _ (db.rows.map _) = _
  rw [List.find?_map]
  have hcomp : ((fun x : LinkRow => x.id == id && x.user_id == user) ∘
      (fun x : LinkRow => if x.id == id && x.user_id == user then
        { x with is_favorite := v } else x))
      = fun x : LinkRow => x.id == id && x.user_id == user := by
    funext x
    simp only [Function.comp_apply]
    by_cases hx : (x.id == id && x.user_id == user) = true
    · rw [if_pos hx]
    · rw [if_neg hx]
  rw [hcomp, h]
  have hr := List.find?_some (p := fun x : LinkRow => x.id == id && x.user_id == user) h
  simp only [Option.map_some']
  rw [if_pos hr]

/-- **C7.** For an existing row owned by the caller, one favorite-toggle
call flips the stored `is_favorite` (the caller supplies no state: the
route reads the current value itself), and a second call restores the
original row. -/
theorem toggleFavorite_involutive (db : LinksDb) (id : Nat) (user : String)
    (r : LinkRow) (h : findLink db id user = some r) :
    (toggleFavorite db id user).2 = some { r with is_favorite := !r.is_favorite } ∧
    findLink (toggleFavorite db id user).1 id user
      = some { r with is_favorite := !r.is_favorite } ∧
    findLink (toggleFavorite (toggleFavorite db id user).1 id user).1 id user = some r ∧
    (toggleFavorite (toggleFavorite db id user).1 id user).2 = some r := by
  have e1 := toggleFavorite_eq db id user r h
  have h1 : findLink (toggleFavorite db id user).1 id user
      = some { r with is_favorite := !r.is_favorite } := by
    rw [e1]
    exact findLink_map_flip db id user _ r h
  have e2 := toggleFavorite_eq (toggleFavorite db id user).1 id user _ h1
  have h2 : findLink (toggleFavorite (toggleFavorite db id user).1 id user).1 id user
      = some { r with is_favorite := !(!r.is_favorite) } := by
    rw [e2]
    exact findLink_map_flip (toggleFavorite db id user).1 id user
      (!(!r.is_favorite)) { r with is_favorite := !r.is_favorite } h1
  refine ⟨by rw [e1], h1, ?_, ?_⟩
  · rw [Bool.not_not] at h2
    exact h2
  · rw [e2]
    simp [Bool.not_not]

/-- Witness for C7 at a concrete one-row table. -/
theorem toggleFavorite_involutive_witness :
    findLink ⟨[⟨1, "u", "http://a.com", "", [], false, none, none, none, none, none⟩], 2⟩ 1 "u"
      = some ⟨1, "u", "http://a.com", "", [], false, none, none, none, none, none⟩ ∧
    findLink (toggleFavorite (toggleFavorite
        ⟨[⟨1, "u", "http://a.com", "", [], false, none, none, none, none, none⟩], 2⟩ 1 "u").1 1 "u").1 1 "u"
      = some ⟨1, "u", "http://a.com", "", [], false, none, none, none, none, none⟩ :=
  ⟨by decide,
   (toggleFavorite_involutive ⟨[⟨1, "u", "http://a.com", "", [], false, none, none, none, none, none⟩], 2⟩
      1 "u" ⟨1, "u", "http://a.com", "", [], false, none, none, none, none, none⟩ (by decide)).2.2.1⟩

/-! ## C9 — the share-slug/is_public invariant -/

/-- **C9.** `share_slug` presence tracks `is_public`: creation starts the
row consistent (`FALSE` / `NULL` schema defaults), the share route writes
`is_public = true` together with the freshly generated slug in one update,
the revoke route writes `is_public = false` and `share_slug = null` in one
update, and the only other write path (`PATCH /api/collections/:id`, which
can touch only name/description/color) preserves consistency. -/
theorem collection_share_invariant (c : CollectionRow) (slug : String)
    (user name : String) (description : Option String) (color : Option String) (fresh : Nat)
    (np : Option String) (dp : Option (Option String)) (cp : Option String)
    (h : slugConsistent c) :
    (shareCollection slug c).is_public = true ∧
    (shareCollection slug c).share_slug = some slug ∧
    slugConsistent (shareCollection slug c) ∧
    (revokeShare c).is_public = false ∧
    (revokeShare c).share_slug = none ∧
    slugConsistent (revokeShare c) ∧
    slugConsistent (createCollection user name description color fresh) ∧
    slugConsistent (patchCollection np dp cp c) := by
  refine ⟨rfl, rfl, rfl, rfl, rfl, rfl, rfl, ?_⟩
  have hpub : (patchCollection np dp cp c).is_public = c.is_public := by
    cases np <;> cases dp <;> cases cp <;> rfl
  have hslug : (patchCollection np dp cp c).share_slug = c.share_slug := by
    cases np <;> cases dp <;> cases cp <;> rfl
  unfold slugConsistent at *
  rw [hpub, hslug, h]

/-- Witness for C9 at a concrete collection row. -/
theorem collection_share_invariant_witness :
    slugConsistent (⟨1, "u", "c", none, "#f97316", false, none⟩ : CollectionRow) ∧
    (shareCollection "abcd" ⟨1, "u", "c", none, "#f97316", false, none⟩).share_slug = some "abcd" :=
  ⟨by decide,
   (collection_share_invariant ⟨1, "u", "c", none, "#f97316", false, none⟩ "abcd"
      "u" "c" none none 2 none none none (by decide)).2.1⟩

/-! ## C4 — bulk ingestion partitions the batch -/

/-- The trimmed URLs recorded across the three buckets (a `success` row
stores the trimmed URL; `failed`/`duplicates` store the raw item). -/
def recordedUrls (st : BulkState) : List String :=
  st.success.map (fun r => r.url) ++ st.failed.map (fun p => jsTrim p.1) ++
    st.duplicates.map (fun p => jsTrim p.1)

/-- Each loop iteration adds exactly one entry, to exactly one bucket, and
adds a table row exactly when the entry went to `success`. -/
theorem bulkStep_counts (user : String) (tags : List String) (cid : Option String)
    (env : BulkEnv) (st : BulkState) (url : String) :
    (bulkStep user tags cid env st url).success.length +
      (bulkStep user tags cid env st url).failed.length +
      (bulkStep user tags cid env st url).duplicates.length
      = st.success.length + st.failed.length + st.duplicates.length + 1 ∧
    (bulkStep user tags cid env st url).db.rows.length + st.success.length
      = st.db.rows.length + (bulkStep user tags cid env st url).success.length ∧
    (recordedUrls (bulkStep user tags cid env st url)).Perm
      (recordedUrls st ++ [jsTrim url]) := by
  unfold bulkStep
  cases hf : findByUrl st.db user url with
  | some ex =>
    refine ⟨by simp; omega, by simp, ?_⟩
    rw [List.perm_iff_count]
    intro a
    simp [recordedUrls, List.count_append, List.count_cons, List.count_nil]
  | none =>
    cases hins : env.ins st.idx with
    | some msg =>
      refine ⟨by simp; omega, by simp, ?_⟩
      rw [List.perm_iff_count]
      intro a
      simp [recordedUrls, List.count_append, List.count_cons, List.count_nil]
    | none =>
      refine ⟨by simp; omega, by simp; omega, ?_⟩
      rw [List.perm_iff_count]
      intro a
      simp [recordedUrls, List.count_append, List.count_cons, List.count_nil]
      omega

/-- Loop invariants of the whole bulk pass: one bucket entry per input
URL, rows added exactly for successes, and the recorded (trimmed) URLs are
a permutation of the (trimmed) inputs. -/
theorem bulkRun_invariants (user : String) (tags : List String) (cid : Option String)
    (env : BulkEnv) (urls : List String) (st : BulkState) :
    (bulkRun user tags cid env urls st).success.length +
      (bulkRun user tags cid env urls st).failed.length +
      (bulkRun user tags cid env urls st).duplicates.length
      = st.success.length + st.failed.length + st.duplicates.length + urls.length ∧
    (bulkRun user tags cid env urls st).db.rows.length + st.success.length
      = st.db.rows.length + (bulkRun user tags cid env urls st).success.length ∧
    (recordedUrls (bulkRun user tags cid env urls st)).Perm
      (recordedUrls st ++ urls.map jsTrim) := by
  induction urls generalizing st with
  | nil => simp [bulkRun]
  | cons u rest ih =>
    have hstep := bulkStep_counts user tags cid env st u
    have hrest := ih (bulkStep user tags cid env st u)
    have hrun : bulkRun user tags cid env (u :: rest) st
        = bulkRun user tags cid env rest (bulkStep user tags cid env st u) := by
      unfold bulkRun
      rw [List.foldl_cons]
    rw [hrun]
    refine ⟨by simp only [List.length_cons]; omega, by omega, ?_⟩
    refine hrest.2.2.trans ?_
    have := hstep.2.2.append_right (rest.map jsTrim)
    refine this.trans ?_
    rw [List.append_assoc]
    simp

/-- **C4.** For every batch of 1 to 20 items, bulk ingestion runs to
completion (no early abort: the loop result accounts for every URL), each
input URL lands in exactly one of `success`/`failed`/`duplicates` (the
recorded trimmed URLs are a permutation of the trimmed inputs, and bucket
sizes sum to the batch size), and rows are added exactly for `success`
entries — a URL recorded under `duplicates` (or `failed`) creates no row. -/
theorem bulk_three_way_partition (user : String) (tags : List String) (cid : Option String)
    (env : BulkEnv) (db : LinksDb) (urls : List String)
    (h0 : urls ≠ []) (h20 : urls.length ≤ 20) :
    ∃ st, bulkCreate user tags cid env db urls = .ok st ∧
      st.success.length + st.failed.length + st.duplicates.length = urls.length ∧
      (recordedUrls st).Perm (urls.map jsTrim) ∧
      st.db.rows.length = db.rows.length + st.success.length := by
  refine ⟨bulkRun user tags cid env urls ⟨db, [], [], [], 0⟩, ?_, ?_, ?_, ?_⟩
  · unfold bulkCreate
    rw [if_neg (by simpa using fun hl => h0 (List.length_eq_zero.mp hl)),
        if_neg (by omega)]
  · have := (bulkRun_invariants user tags cid env urls ⟨db, [], [], [], 0⟩).1
    simpa using this
  · have := (bulkRun_invariants user tags cid env urls ⟨db, [], [], [], 0⟩).2.2
    simpa [recordedUrls] using this
  · have := (bulkRun_invariants user tags cid env urls ⟨db, [], [], [], 0⟩).2.1
    simpa using this

/-- Witness for C4: a two-URL batch (one insert fails via the oracle). -/
theorem bulk_three_way_partition_witness :
    (["http://a.com", "http://b.com"] : List String) ≠ [] ∧
    (∃ st, bulkCreate "u1" [] none ⟨fun _ => .threw, fun i => if i = 0 then some "db down" else none⟩
        ⟨[], 0⟩ ["http://a.com", "http://b.com"] = .ok st ∧
      st.success.length + st.failed.length + st.duplicates.length = 2 ∧
      (recordedUrls st).Perm (["http://a.com", "http://b.com"].map jsTrim) ∧
      st.db.rows.length = ([] : List LinkRow).length + st.success.length) :=
  ⟨by decide,
   bulk_three_way_partition "u1" [] none
     ⟨fun _ => .threw, fun i => if i = 0 then some "db down" else none⟩
     ⟨[], 0⟩ ["http://a.com", "http://b.com"] (by decide) (by decide)⟩

/-! ## C1 — a malformed URL in a bulk batch is *not* routed to `failed`

The bulk route never validates URLs: `fetchMetadata` absorbs every
resolution failure into fallback metadata (C2), and the repository schema
declares `url TEXT NOT NULL` with no format constraint, so the insert of a
malformed URL string succeeds.  A URL reaches `failed` only when the
duplicate-check/insert step itself throws. -/

/-- Nine well-formed URLs and one malformed one. -/
def bulkDemoUrls : List String :=
  ["http://a0.com", "http://a1.com", "http://a2.com", "http://a3.com", "http://a4.com",
   "http://a5.com", "http://a6.com", "http://a7.com", "http://a8.com", "no such url"]

/-- Oracle for the demo batch: every scrape fails (worst case for the
malformed URL) and, per the schema, every insert succeeds. -/
def bulkDemoEnv : BulkEnv := ⟨fun _ => .threw, fun _ => none⟩

/-- **C1 (counterexample).** On a batch of nine valid URLs and one
malformed one (with all inserts accepted, as the unconstrained `url TEXT`
column does), the bulk route returns `success.length = 10` and
`failed.length = 0`, not the claimed 9/1 split. -/
theorem bulk_malformed_url_counterexample :
    (bulkDemoUrls.filter isValidUrl).length = 9 ∧
    isValidUrl "no such url" = false ∧
    ((bulkCreate "u1" [] none bulkDemoEnv ⟨[], 0⟩ bulkDemoUrls).map
        (fun st => (st.success.length, st.failed.length, st.duplicates.length))).toOption
      = some (10, 0, 0) ∧
    ¬ ((bulkCreate "u1" [] none bulkDemoEnv ⟨[], 0⟩ bulkDemoUrls).map
        (fun st => (st.success.length, st.failed.length, st.duplicates.length))).toOption
      = some (9, 1, 0) := by decide

/-- When every insert succeeds, the bulk loop adds nothing to `failed`. -/
theorem bulkRun_failed_of_insert_ok (user : String) (tags : List String)
    (cid : Option String) (env : BulkEnv) (hins : ∀ i, env.ins i = none) :
    ∀ (urls : List String) (st : BulkState),
      (bulkRun user tags cid env urls st).failed = st.failed := by
  intro urls
  induction urls with
  | nil => intro st; rfl
  | cons u rest ih =>
    intro st
    have hrun : bulkRun user tags cid env (u :: rest) st
        = bulkRun user tags cid env rest (bulkStep user tags cid env st u) := by
      unfold bulkRun
      rw [List.foldl_cons]
    rw [hrun, ih]
    unfold bulkStep
    cases hf : findByUrl st.db user u with
    | some ex => rfl
    | none => rw [hins st.idx]

/-- When every insert succeeds and the batch URLs are fresh (no existing
row, no repeated trimmed URL), every URL lands in `success`. -/
theorem bulkRun_fresh (user : String) (tags : List String) (cid : Option String)
    (env : BulkEnv) (hins : ∀ i, env.ins i = none) :
    ∀ (urls : List String) (st : BulkState),
      (∀ u ∈ urls, findByUrl st.db user u = none) →
      (urls.map jsTrim).Nodup →
      (bulkRun user tags cid env urls st).duplicates = st.duplicates ∧
      (bulkRun user tags cid env urls st).success.length
        = st.success.length + urls.length := by
  intro urls
  induction urls with
  | nil => intro st _ _; exact ⟨rfl, rfl⟩
  | cons u rest ih =>
    intro st hfresh hnodup
    have hf : findByUrl st.db user u = none := hfresh u (List.mem_cons_self u rest)
    have hdbe : ∃ r : LinkRow, r.url = jsTrim u ∧
        (bulkStep user tags cid env st u).db.rows = st.db.rows ++ [r] :=
      ⟨{ id := st.db.nextId, user_id := user, url := jsTrim u, note := "", tags := tags,
         is_favorite := false, collection_id := cid,
         title := (fetchMetadata (env.ogs st.idx) u).title,
         description := (fetchMetadata (env.ogs st.idx) u).description,
         image_url := (fetchMetadata (env.ogs st.idx) u).image,
         favicon_url := (fetchMetadata (env.ogs st.idx) u).favicon },
       rfl, by simp [bulkStep, hf, hins st.idx]⟩
    have hnodup' : (rest.map jsTrim).Nodup := by
      rw [List.map_cons, List.nodup_cons] at hnodup
      exact hnodup.2
    have hnotmem : jsTrim u ∉ rest.map jsTrim := by
      rw [List.map_cons, List.nodup_cons] at hnodup
      exact hnodup.1
    have hfresh' : ∀ u' ∈ rest, findByUrl (bulkStep user tags cid env st u).db user u' = none := by
      intro u' hu'
      obtain ⟨r, hrurl, hrows⟩ := hdbe
      have hne : jsTrim u ≠ jsTrim u' := by
        intro he
        exact hnotmem (he ▸ List.mem_map_of_mem jsTrim hu')
      have h1 := hfresh u' (List.mem_cons_of_mem u hu')
      unfold findByUrl at h1 ⊢
      rw [hrows, List.find?_append, h1, Option.none_or,
          List.find?_cons_of_neg _ (by simp [hrurl, hne]), List.find?_nil]
    have hrun : bulkRun user tags cid env (u :: rest) st
        = bulkRun user tags cid env rest (bulkStep user tags cid env st u) := by
      unfold bulkRun
      rw [List.foldl_cons]
    have hrest := ih (bulkStep user tags cid env st u) hfresh' hnodup'
    have hdup : (bulkStep user tags cid env st u).duplicates = st.duplicates := by
      simp [bulkStep, hf, hins st.idx]
    have hsuc : (bulkStep user tags cid env st u).success.length
        = st.success.length + 1 := by
      simp [bulkStep, hf, hins st.idx]
    refine ⟨?_, ?_⟩
    · rw [hrun, hrest.1, hdup]
    · rw [hrun, hrest.2, hsuc, List.length_cons]
      omega

/-- **C1 (amended).** A malformed URL among nine valid ones is *not*
diverted to `failed`: the bulk route validates nothing and metadata
resolution absorbs its own failures, so whenever the persistence layer
accepts every insert (the repository schema constrains `url` only to be
non-null) and the batch URLs are fresh, *every* URL of the batch — the
malformed one included — is recorded under `success`: for the claim's
10-URL scenario, `success.length = 10` and `failed.length = 0`. -/
theorem bulk_all_fresh_urls_succeed (user : String) (tags : List String)
    (cid : Option String) (env : BulkEnv) (db : LinksDb) (urls : List String)
    (h0 : urls ≠ []) (h20 : urls.length ≤ 20)
    (hins : ∀ i, env.ins i = none)
    (hfresh : ∀ u ∈ urls, findByUrl db user u = none)
    (hnodup : (urls.map jsTrim).Nodup) :
    ∃ st, bulkCreate user tags cid env db urls = .ok st ∧
      st.failed = [] ∧ st.duplicates = [] ∧ st.success.length = urls.length := by
  refine ⟨bulkRun user tags cid env urls ⟨db, [], [], [], 0⟩, ?_, ?_, ?_, ?_⟩
  · unfold bulkCreate
    rw [if_neg (by simpa using fun hl => h0 (List.length_eq_zero.mp hl)),
        if_neg (by omega)]
  · exact bulkRun_failed_of_insert_ok user tags cid env hins urls ⟨db, [], [], [], 0⟩
  · exact (bulkRun_fresh user tags cid env hins urls ⟨db, [], [], [], 0⟩ hfresh hnodup).1
  · have := (bulkRun_fresh user tags cid env hins urls ⟨db, [], [], [], 0⟩ hfresh hnodup).2
    simpa using this

/-- Witness for the amended C1 on the demo batch. -/
theorem bulk_all_fresh_urls_succeed_witness :
    (∀ i, bulkDemoEnv.ins i = none) ∧
    ∃ st, bulkCreate "u1" [] none bulkDemoEnv ⟨[], 0⟩ bulkDemoUrls = .ok st ∧
      st.failed = [] ∧ st.duplicates = [] ∧ st.success.length = bulkDemoUrls.length :=
  ⟨fun _ => rfl,
   bulk_all_fresh_urls_succeed "u1" [] none bulkDemoEnv ⟨[], 0⟩ bulkDemoUrls
     (by decide) (by decide) (fun _ => rfl) (by decide) (by decide)⟩

/-! ## C3 / C10 — the undo-delete protocol -/

theorem delIds_cons_del (l : CLink) (es : List UndoEvent) :
    delIds (.del l :: es) = l.id :: delIds es := rfl

theorem delIds_cons_undo (es : List UndoEvent) : delIds (.undo :: es) = delIds es := rfl

theorem delIds_cons_fire (t : Nat) (es : List UndoEvent) :
    delIds (.fire t :: es) = delIds es := rfl

/-- Provenance of issued delete requests: a request observed after a trace
was already issued, or targets the pending timer's link, or targets a link
deleted during the trace. -/
theorem undoRun_sent_provenance :
    ∀ (es : List UndoEvent) (s : UndoState) (i : Nat),
      i ∈ (undoRun es s).sent →
      i ∈ s.sent ∨ (∃ p, s.timer = some p ∧ p.2 = i) ∨ i ∈ delIds es := by
  intro es
  induction es with
  | nil => intro s i h; exact Or.inl h
  | cons e rest ih =>
    intro s i h
    have hrun : undoRun (e :: rest) s = undoRun rest (undoStep s e) := rfl
    rw [hrun] at h
    rcases ih (undoStep s e) i h with h1 | h2 | h3
    · cases e with
      | del l => exact Or.inl h1
      | undo =>
        cases hd : s.deletedLink with
        | some l => simp only [undoStep, hd] at h1; exact Or.inl h1
        | none => simp only [undoStep, hd] at h1; exact Or.inl h1
      | fire t =>
        cases ht : s.timer with
        | none => simp only [undoStep, ht] at h1; exact Or.inl h1
        | some p =>
          obtain ⟨tid, lid⟩ := p
          by_cases he : t = tid
          · cases hd : s.deletedLink with
            | some dl =>
              by_cases hdl : dl.id = lid
              · simp only [undoStep, ht, he, hd, hdl, if_pos] at h1
                simp only [List.mem_cons] at h1
                rcases h1 with h1 | h1
                · exact Or.inr (Or.inl ⟨(tid, lid), rfl, h1.symm⟩)
                · exact Or.inl h1
              · simp only [undoStep, ht, he, hd, if_pos, if_neg hdl] at h1
                exact Or.inl h1
            | none =>
              simp only [undoStep, ht, he, hd, if_pos] at h1
              exact Or.inl h1
          · simp only [undoStep, ht, if_neg he] at h1
            exact Or.inl h1
    · obtain ⟨p, hp, hpi⟩ := h2
      cases e with
      | del l =>
        have hpl : p = (s.nextTimer, l.id) := by
          simpa only [undoStep, Option.some.injEq] using hp.symm
        right; right
        rw [delIds_cons_del, List.mem_cons]
        left
        rw [← hpi, hpl]
      | undo =>
        cases hd : s.deletedLink with
        | some l =>
          simp only [undoStep, hd] at hp
          exact absurd hp (by simp)
        | none =>
          simp only [undoStep, hd] at hp
          exact Or.inr (Or.inl ⟨p, hp, hpi⟩)
      | fire t =>
        cases ht : s.timer with
        | none =>
          simp only [undoStep, ht] at hp
          exact Or.inr (Or.inl ⟨p, hp, hpi⟩)
        | some q =>
          obtain ⟨tid, lid⟩ := q
          by_cases he : t = tid
          · cases hd : s.deletedLink with
            | some dl =>
              by_cases hdl : dl.id = lid
              · simp only [undoStep, ht, he, hd, hdl, if_pos] at hp
                exact absurd hp (by simp)
              · simp only [undoStep, ht, he, hd, if_pos, if_neg hdl] at hp
                exact absurd hp (by simp)
            | none =>
              simp only [undoStep, ht, he, hd, if_pos] at hp
              exact absurd hp (by simp)
          · simp only [undoStep, ht, if_neg he] at hp
            exact Or.inr (Or.inl ⟨p, hp, hpi⟩)
    · right; right
      cases e with
      | del l => rw [delIds_cons_del]; exact List.mem_cons_of_mem _ h3
      | undo => rw [delIds_cons_undo]; exact h3
      | fire t => rw [delIds_cons_fire]; exact h3

/-- Provenance of cached (or pending-undo-held) links: a link present
after a trace was already cached, was already held in the undo slot, or
was deleted during the trace. -/
theorem undoRun_cache_provenance :
    ∀ (es : List UndoEvent) (s : UndoState) (i : Nat),
      (i ∈ (undoRun es s).cache.map CLink.id ∨
        (∃ x, (undoRun es s).deletedLink = some x ∧ x.id = i)) →
      i ∈ s.cache.map CLink.id ∨ (∃ x, s.deletedLink = some x ∧ x.id = i) ∨ i ∈ delIds es := by
  intro es
  induction es with
  | nil =>
    intro s i h
    rcases h with h | h
    · exact Or.inl h
    · exact Or.inr (Or.inl h)
  | cons e rest ih =>
    intro s i h
    have hrun : undoRun (e :: rest) s = undoRun rest (undoStep s e) := rfl
    rw [hrun] at h
    rcases ih (undoStep s e) i h with h1 | h2 | h3
    · cases e with
      | del l =>
        simp only [undoStep, List.mem_map] at h1
        obtain ⟨x, hx, hxi⟩ := h1
        rw [List.mem_filter] at hx
        exact Or.inl (List.mem_map.mpr ⟨x, hx.1, hxi⟩)
      | undo =>
        cases hd : s.deletedLink with
        | some l =>
          simp only [undoStep, hd, List.map_cons, List.mem_cons] at h1
          rcases h1 with h1 | h1
          · exact Or.inr (Or.inl ⟨l, rfl, h1.symm⟩)
          · exact Or.inl h1
        | none =>
          simp only [undoStep, hd] at h1
          exact Or.inl h1
      | fire t =>
        cases ht : s.timer with
        | none => simp only [undoStep, ht] at h1; exact Or.inl h1
        | some q =>
          obtain ⟨tid, lid⟩ := q
          by_cases he : t = tid
          · cases hd : s.deletedLink with
            | some dl =>
              by_cases hdl : dl.id = lid
              · simp only [undoStep, ht, he, hd, hdl, if_pos, List.mem_map] at h1
                obtain ⟨x, hx, hxi⟩ := h1
                rw [List.mem_filter] at hx
                exact Or.inl (List.mem_map.mpr ⟨x, hx.1, hxi⟩)
              · simp only [undoStep, ht, he, hd, if_pos, if_neg hdl] at h1
                exact Or.inl h1
            | none =>
              simp only [undoStep, ht, he, hd, if_pos] at h1
              exact Or.inl h1
          · simp only [undoStep, ht, if_neg he] at h1
            exact Or.inl h1
    · obtain ⟨x, hx, hxi⟩ := h2
      cases e with
      | del l =>
        have hxl : x = l := by
          simpa only [undoStep, Option.some.injEq] using hx.symm
        right; right
        rw [delIds_cons_del, List.mem_cons]
        left
        rw [← hxi, hxl]
      | undo =>
        cases hd : s.deletedLink with
        | some l =>
          simp only [undoStep, hd] at hx
          exact absurd hx (by simp)
        | none =>
          simp only [undoStep, hd] at hx
          exact Or.inr (Or.inl ⟨x, hx, hxi⟩)
      | fire t =>
        cases ht : s.timer with
        | none =>
          simp only [undoStep, ht] at hx
          exact Or.inr (Or.inl ⟨x, hx, hxi⟩)
        | some q =>
          obtain ⟨tid, lid⟩ := q
          by_cases he : t = tid
          · cases hd : s.deletedLink with
            | some dl =>
              by_cases hdl : dl.id = lid
              · simp only [undoStep, ht, he, hd, hdl, if_pos] at hx
                exact absurd hx (by simp)
              · simp only [undoStep, ht, he, hd, if_pos, if_neg hdl] at hx
                exact Or.inr (Or.inl ⟨x, hx, hxi⟩)
            | none =>
              simp only [undoStep, ht, he, hd, if_pos] at hx
              exact absurd hx (by simp)
          · simp only [undoStep, ht, if_neg he] at hx
            exact Or.inr (Or.inl ⟨x, hx, hxi⟩)
    · right; right
      cases e with
      | del l => rw [delIds_cons_del]; exact List.mem_cons_of_mem _ h3
      | undo => rw [delIds_cons_undo]; exact h3
      | fire t => rw [delIds_cons_fire]; exact h3

/-- **C3.** Undo-delete protocol for a deleted link `L` (not previously
committed, and not deleted again in the remainder of the trace): if undo
is invoked before the 5-second timer fires, `L` is reinserted at the head
of the cached list, the pending timer is cancelled, no delete request was
issued by the two steps, and no delete request for `L` is ever issued by
*any* continuation of the trace; if instead the timer fires with no undo,
the actual delete request for `L` is issued. -/
theorem undo_delete_protocol (s : UndoState) (l : CLink) (es : List UndoEvent)
    (hsent : l.id ∉ s.sent) (hes : l.id ∉ delIds es) :
    (undoStep (undoStep s (.del l)) .undo).cache
      = l :: (undoStep s (.del l)).cache ∧
    (undoStep (undoStep s (.del l)) .undo).timer = none ∧
    (undoStep (undoStep s (.del l)) .undo).sent = s.sent ∧
    l.id ∉ (undoRun es (undoStep (undoStep s (.del l)) .undo)).sent ∧
    (undoStep (undoStep s (.del l)) (.fire s.nextTimer)).sent = l.id :: s.sent := by
  refine ⟨rfl, rfl, rfl, ?_, ?_⟩
  · intro hmem
    rcases undoRun_sent_provenance es (undoStep (undoStep s (.del l)) .undo) l.id hmem with
      h | ⟨p, hp, _⟩ | h
    · exact hsent h
    · exact Option.noConfusion hp
    · exact hes h
  · simp [undoStep]

/-- Witness for C3 on a concrete two-link cache and the empty continuation. -/
theorem undo_delete_protocol_witness :
    ((1 : Nat) ∉ ([] : List Nat) ∧ (1 : Nat) ∉ delIds []) ∧
    ((undoStep (undoStep ⟨none, none, [⟨1, "a"⟩, ⟨2, "b"⟩], [], 0⟩ (.del ⟨1, "a"⟩)) .undo).cache
        = ⟨1, "a"⟩ :: (undoStep ⟨none, none, [⟨1, "a"⟩, ⟨2, "b"⟩], [], 0⟩ (.del ⟨1, "a"⟩)).cache ∧
      (undoStep (undoStep ⟨none, none, [⟨1, "a"⟩, ⟨2, "b"⟩], [], 0⟩ (.del ⟨1, "a"⟩)) .undo).timer = none ∧
      (undoStep (undoStep ⟨none, none, [⟨1, "a"⟩, ⟨2, "b"⟩], [], 0⟩ (.del ⟨1, "a"⟩)) .undo).sent = [] ∧
      (1 : Nat) ∉ (undoRun []
        (undoStep (undoStep ⟨none, none, [⟨1, "a"⟩, ⟨2, "b"⟩], [], 0⟩ (.del ⟨1, "a"⟩)) .undo)).sent ∧
      (undoStep (undoStep ⟨none, none, [⟨1, "a"⟩, ⟨2, "b"⟩], [], 0⟩ (.del ⟨1, "a"⟩))
          (.fire 0)).sent = [1]) :=
  ⟨⟨by decide, by decide⟩,
   undo_delete_protocol ⟨none, none, [⟨1, "a"⟩, ⟨2, "b"⟩], [], 0⟩ ⟨1, "a"⟩ []
     (by decide) (by decide)⟩

/-- **C10.** Starting a second undo-delete while an earlier one is pending
supersedes it: after `del L1; del L2` (distinct ids), the pending timer is
the fresh one for `L2` and firing the stale `L1` timer id is a no-op (the
timer was cleared); no delete request has been issued; `L1`'s delete
request is never issued by any continuation that does not delete `L1`
again, yet `L1` is already gone from the cache and stays gone; and any
delete request issued by a continuation with no further deletes can only
target `L2`. -/
theorem second_delete_supersedes_first (s : UndoState) (l1 l2 : CLink) (es : List UndoEvent)
    (hne : l1.id ≠ l2.id) (hsent : l1.id ∉ s.sent) (hes : l1.id ∉ delIds es) :
    (undoStep (undoStep s (.del l1)) (.del l2)).timer = some (s.nextTimer + 1, l2.id) ∧
    undoStep (undoStep (undoStep s (.del l1)) (.del l2)) (.fire s.nextTimer)
      = undoStep (undoStep s (.del l1)) (.del l2) ∧
    (undoStep (undoStep s (.del l1)) (.del l2)).sent = s.sent ∧
    l1.id ∉ (undoRun es (undoStep (undoStep s (.del l1)) (.del l2))).sent ∧
    l1.id ∉ (undoStep (undoStep s (.del l1)) (.del l2)).cache.map CLink.id ∧
    l1.id ∉ (undoRun es (undoStep (undoStep s (.del l1)) (.del l2))).cache.map CLink.id ∧
    (delIds es = [] →
      ∀ i, i ∈ (undoRun es (undoStep (undoStep s (.del l1)) (.del l2))).sent →
        i ∈ s.sent ∨ i = l2.id) := by
  have hcache2 : l1.id ∉ (undoStep (undoStep s (.del l1)) (.del l2)).cache.map CLink.id := by
    intro hmem
    simp only [undoStep, List.mem_map] at hmem
    obtain ⟨x, hx, hxi⟩ := hmem
    rw [List.mem_filter] at hx
    have hx1 := hx.1
    rw [List.mem_filter] at hx1
    have := hx1.2
    simp only [decide_eq_true_eq] at this
    exact this hxi
  refine ⟨rfl, ?_, rfl, ?_, hcache2, ?_, ?_⟩
  · simp only [undoStep]
    rw [if_neg (by omega)]
  · intro hmem
    rcases undoRun_sent_provenance es (undoStep (undoStep s (.del l1)) (.del l2)) l1.id hmem with
      h | ⟨p, hp, hpi⟩ | h
    · exact hsent h
    · have : p = (s.nextTimer + 1, l2.id) := by
        simpa only [undoStep, Option.some.injEq] using hp.symm
      rw [this] at hpi
      exact hne hpi.symm
    · exact hes h
  · intro hmem
    rcases undoRun_cache_provenance es (undoStep (undoStep s (.del l1)) (.del l2)) l1.id
        (Or.inl hmem) with h | ⟨x, hx, hxi⟩ | h
    · exact hcache2 h
    · have : x = l2 := by
        simpa only [undoStep, Option.some.injEq] using hx.symm
      rw [this] at hxi
      exact hne hxi.symm
    · exact hes h
  · intro hdel i hmem
    rcases undoRun_sent_provenance es (undoStep (undoStep s (.del l1)) (.del l2)) i hmem with
      h | ⟨p, hp, hpi⟩ | h
    · exact Or.inl h
    · have : p = (s.nextTimer + 1, l2.id) := by
        simpa only [undoStep, Option.some.injEq] using hp.symm
      rw [this] at hpi
      exact Or.inr hpi.symm
    · rw [hdel] at h
      exact absurd h (List.not_mem_nil i)

/-- Witness for C10 on a concrete state. -/
theorem second_delete_supersedes_first_witness :
    ((1 : Nat) ≠ 2 ∧ (1 : Nat) ∉ ([] : List Nat) ∧ (1 : Nat) ∉ delIds []) ∧
    ((undoStep (undoStep ⟨none, none, [⟨1, "a"⟩, ⟨2, "b"⟩], [], 0⟩ (.del ⟨1, "a"⟩))
        (.del ⟨2, "b"⟩)).timer = some (1, 2) ∧
     undoStep (undoStep (undoStep ⟨none, none, [⟨1, "a"⟩, ⟨2, "b"⟩], [], 0⟩ (.del ⟨1, "a"⟩))
        (.del ⟨2, "b"⟩)) (.fire 0)
      = undoStep (undoStep ⟨none, none, [⟨1, "a"⟩, ⟨2, "b"⟩], [], 0⟩ (.del ⟨1, "a"⟩))
        (.del ⟨2, "b"⟩) ∧
     (undoStep (undoStep ⟨none, none, [⟨1, "a"⟩, ⟨2, "b"⟩], [], 0⟩ (.del ⟨1, "a"⟩))
        (.del ⟨2, "b"⟩)).sent = [] ∧
     (1 : Nat) ∉ (undoRun [] (undoStep (undoStep ⟨none, none, [⟨1, "a"⟩, ⟨2, "b"⟩], [], 0⟩
        (.del ⟨1, "a"⟩)) (.del ⟨2, "b"⟩))).sent ∧
     (1 : Nat) ∉ (undoStep (undoStep ⟨none, none, [⟨1, "a"⟩, ⟨2, "b"⟩], [], 0⟩ (.del ⟨1, "a"⟩))
        (.del ⟨2, "b"⟩)).cache.map CLink.id ∧
     (1 : Nat) ∉ (undoRun [] (undoStep (undoStep ⟨none, none, [⟨1, "a"⟩, ⟨2, "b"⟩], [], 0⟩
        (.del ⟨1, "a"⟩)) (.del ⟨2, "b"⟩))).cache.map CLink.id ∧
     (delIds [] = [] →
       ∀ i, i ∈ (undoRun [] (undoStep (undoStep ⟨none, none, [⟨1, "a"⟩, ⟨2, "b"⟩], [], 0⟩
          (.del ⟨1, "a"⟩)) (.del ⟨2, "b"⟩))).sent → i ∈ ([] : List Nat) ∨ i = 2)) :=
  ⟨⟨by decide, by decide, by decide⟩,
   second_delete_supersedes_first ⟨none, none, [⟨1, "a"⟩, ⟨2, "b"⟩], [], 0⟩ ⟨1, "a"⟩ ⟨2, "b"⟩ []
     (by decide) (by decide) (by decide)⟩

end LinkVault
